import Mathlib

/-!
Verification development for the modelrunner request-scheduling and paged
KV-cache admission subsystem.  The definitions below are a shallow embedding
of the Rust sources under `src/runner/crates`:

- `runner-core/src/kv.rs`       : `PagedKvManager`, `Reservation`, `PrefixCache`
- `runner-core/src/scheduler.rs`: `SchedulerV1::enqueue` (admission protocol)
- `runner-core/src/decode.rs`   : `generate_once`
- `runner-core/src/sampler.rs`  : `sample_top_k_top_p`
- `runner-backend/src/lib.rs`   : `InferenceBackend` trait and `MockBackend`

Machine integers (`usize`, `u64`, `u32`, `u8`) are modelled as `Nat` with
explicit `% 2 ^ w` where wrap-around matters (the SipHash mixer).  Rust
strings are modelled as lists of Unicode scalar values (`Str`); their UTF-8
byte representation is computed by `utf8Bytes`.  Fallible operations return
`Except`; a Rust panic is modelled as `Except.error ()`.
-/

set_option maxRecDepth 100000

namespace ModelRunner

/-- A Rust `String`/`&str` value, modelled as its list of Unicode scalar
values (each a `Nat`; validity is the separate predicate `ValidStr`). -/
abbrev Str := List Nat

/-- A Unicode scalar value as Rust's `char` admits it: below `0x110000` and
not a UTF-16 surrogate. -/
def ValidChar (c : Nat) : Prop := c < 0x110000 ∧ (c < 0xD800 ∨ 0xE000 ≤ c)

instance (c : Nat) : Decidable (ValidChar c) := by
  unfold ValidChar; infer_instance

/-- Every scalar of the string is a valid `char`. -/
def ValidStr (s : Str) : Prop := ∀ c ∈ s, ValidChar c

instance (s : Str) : Decidable (ValidStr s) := by
  unfold ValidStr; infer_instance

/-- Standard UTF-8 encoding of one scalar value (as Rust's
`char::encode_utf8` produces it). -/
def utf8EncodeChar (c : Nat) : List Nat :=
  if c < 0x80 then [c]
  else if c < 0x800 then [0xC0 + c / 0x40, 0x80 + c % 0x40]
  else if c < 0x10000 then
    [0xE0 + c / 0x1000, 0x80 + c / 0x40 % 0x40, 0x80 + c % 0x40]
  else
    [0xF0 + c / 0x40000, 0x80 + c / 0x1000 % 0x40, 0x80 + c / 0x40 % 0x40,
     0x80 + c % 0x40]

/-- The UTF-8 bytes of a string: what Rust's `str::as_bytes` returns. -/
def utf8Bytes (s : Str) : List Nat := s.flatMap utf8EncodeChar

/-- Byte length of a string: Rust's `str::len`. -/
def utf8Len (s : Str) : Nat := (utf8Bytes s).length

/-! ## Paged KV manager (`runner-core/src/kv.rs`)

```rust
pub struct PagedKvManager {
    capacity_blocks: usize,
    used_blocks: AtomicUsize,
    enable_spill: bool,
    free_list: Mutex<Vec<usize>>,
}
```
The atomics are modelled by plain fields: every claim here is about the
sequential (linearized) behaviour of the manager, and the CAS loop of
`try_reserve` linearizes to the test-and-increment below. -/

structure KvSt where
  capacity : Nat
  used : Nat
  freeList : List Nat
  enableSpill : Bool
deriving Repr, DecidableEq

/-- `PagedKvManager::TOKENS_PER_BLOCK`. -/
def TOKENS_PER_BLOCK : Nat := 32

/-- `PagedKvManager::new(capacity_bytes)`: `capacity_blocks = capacity_bytes / 4096`,
`used_blocks = 0`, empty free list, spill disabled. -/
def newKv (capacityBytes : Nat) : KvSt :=
  { capacity := capacityBytes / 4096, used := 0, freeList := [], enableSpill := false }

/-- `PagedKvManager::tokens_to_blocks`: `(tokens + TOKENS_PER_BLOCK - 1) / TOKENS_PER_BLOCK`. -/
def tokensToBlocks (tokens : Nat) : Nat :=
  (tokens + TOKENS_PER_BLOCK - 1) / TOKENS_PER_BLOCK

/-- `PagedKvManager::try_reserve(blocks)`: fail when `used + blocks` would
exceed `capacity_blocks`, otherwise increment `used_blocks` and hand out a
reservation recording `blocks`.  The returned `Nat` is the `blocks` field of
the Rust `Reservation`. -/
def tryReserve (s : KvSt) (blocks : Nat) : Option (Nat × KvSt) :=
  if s.capacity < s.used + blocks then none
  else some (blocks, { s with used := s.used + blocks })

/-- `PagedKvManager::release(blocks)` (called by `Reservation`'s `Drop`):
`used_blocks -= blocks`, then push `blocks` onto the free-list sketch. -/
def releaseKv (s : KvSt) (blocks : Nat) : KvSt :=
  { s with used := s.used - blocks, freeList := s.freeList ++ [blocks] }

/-- One externally observable KV operation: a `try_reserve(n)` call, or the
drop of the `i`-th currently live reservation. -/
inductive KvOp where
  | reserve (n : Nat)
  | release (i : Nat)

/-- System state: the manager plus the sizes of the currently live
reservations (ownership of `Reservation` values, tracked explicitly). -/
structure SysSt where
  kv : KvSt
  live : List Nat

/-- One step of the reserve/release protocol.  A failed `try_reserve` leaves
the state unchanged; a release is only possible for a live reservation and
consumes it (Rust's move semantics: `Drop` runs once). -/
def kvStep (s : SysSt) : KvOp → SysSt
  | KvOp.reserve n =>
    match tryReserve s.kv n with
    | some (r, kv2) => { kv := kv2, live := s.live ++ [r] }
    | none => s
  | KvOp.release i =>
    if h : i < s.live.length then
      { kv := releaseKv s.kv (s.live.get ⟨i, h⟩), live := s.live.eraseIdx i }
    else s

/-- Run a sequence of operations from a freshly constructed manager. -/
def kvRun (capacityBytes : Nat) (ops : List KvOp) : SysSt :=
  ops.foldl kvStep { kv := newKv capacityBytes, live := [] }

/-- Conservation invariant: `used_blocks` equals the sum of the live
reservation sizes and never exceeds the capacity. -/
def KvInv (s : SysSt) : Prop :=
  s.kv.used = s.live.sum ∧ s.kv.used ≤ s.kv.capacity

lemma get_le_sum (l : List Nat) (i : Fin l.length) : l.get i ≤ l.sum := by
  induction l with
  | nil => exact absurd i.2 (by simp)
  | cons a t ih =>
    match i with
    | ⟨0, _⟩ => simp
    | ⟨j + 1, hj⟩ =>
      have := ih ⟨j, by simpa using hj⟩
      simp only [List.get, List.sum_cons]
      omega

lemma sum_eraseIdx (l : List Nat) (i : Nat) (h : i < l.length) :
    (l.eraseIdx i).sum + l.get ⟨i, h⟩ = l.sum := by
  induction l generalizing i with
  | nil => simp at h
  | cons a t ih =>
    match i with
    | 0 => simp; omega
    | j + 1 =>
      have hj : j < t.length := by simpa using h
      have := ih j hj
      simp only [List.eraseIdx_cons_succ, List.sum_cons, List.get]
      omega

lemma kvStep_inv (s : SysSt) (op : KvOp) (h : KvInv s) : KvInv (kvStep s op) := by
  obtain ⟨h1, h2⟩ := h
  cases op with
  | reserve n =>
    simp only [kvStep]
    cases hr : tryReserve s.kv n with
    | none => exact ⟨h1, h2⟩
    | some pr =>
      obtain ⟨r, kv2⟩ := pr
      unfold tryReserve at hr
      split at hr
      · exact absurd hr (by simp)
      · rename_i hc
        have hr2 : r = n ∧ kv2 = { s.kv with used := s.kv.used + n } := by
          constructor <;> (injection hr with hrl; injection hrl with ha hb)
          · exact ha.symm
          · exact hb.symm
        obtain ⟨hrn, hkv2⟩ := hr2
        subst hrn hkv2
        constructor
        · simp [List.sum_append, h1]
        · simpa using by omega
  | release i =>
    simp only [kvStep]
    by_cases hi : i < s.live.length
    · rw [dif_pos hi]
      have hg := get_le_sum s.live ⟨i, hi⟩
      have he := sum_eraseIdx s.live i hi
      constructor
      · simp only [releaseKv]
        omega
      · simp only [releaseKv]
        omega
    · rw [dif_neg hi]; exact ⟨h1, h2⟩

lemma foldl_inv (ops : List KvOp) (s : SysSt) (h : KvInv s) :
    KvInv (ops.foldl kvStep s) := by
  induction ops generalizing s with
  | nil => exact h
  | cons op t ih => exact ih (kvStep s op) (kvStep_inv s op h)

/-- C1: for every sequence of `try_reserve` / reservation-release operations
starting from a fresh manager (`used_blocks = 0`), the invariant
`0 ≤ used_blocks ≤ capacity_blocks` holds at every observation point
(`used_blocks` is a `usize`, so `0 ≤ used_blocks` is by type; the model
additionally proves the conservation equality with the live reservations). -/
theorem kv_used_within_capacity (capacityBytes : Nat) (ops : List KvOp) :
    0 ≤ (kvRun capacityBytes ops).kv.used ∧
    (kvRun capacityBytes ops).kv.used ≤ (kvRun capacityBytes ops).kv.capacity := by
  have h0 : KvInv { kv := newKv capacityBytes, live := [] } := by
    constructor <;> simp [newKv]
  have := foldl_inv ops _ h0
  exact ⟨Nat.zero_le _, this.2⟩

lemma tryReserve_some_spec (s : KvSt) (n r : Nat) (s2 : KvSt)
    (hr : tryReserve s n = some (r, s2)) :
    s2.used = s.used + n ∧ r = n ∧ s2.capacity = s.capacity ∧
    s2.freeList = s.freeList := by
  unfold tryReserve at hr
  split at hr
  · exact absurd hr (by simp)
  · have : r = n ∧ s2 = { s with used := s.used + n } := by
      constructor <;> (injection hr with hrl; injection hrl with ha hb)
      · exact ha.symm
      · exact hb.symm
    obtain ⟨hrn, hs2⟩ := this
    subst hrn hs2
    exact ⟨rfl, rfl, rfl, rfl⟩

/-- C2: `try_reserve(n)` succeeds iff `used + n ≤ capacity_blocks`; on
success `used_blocks` becomes `used + n` and the reservation records exactly
`n` blocks (capacity untouched); failure is exactly the overflow case (the
state value is returned unchanged in that branch); and from any state
satisfying the capacity invariant, a zero-block reservation succeeds and
leaves the manager unchanged. -/
theorem try_reserve_spec (s : KvSt) (n : Nat) :
    ((tryReserve s n).isSome ↔ s.used + n ≤ s.capacity) ∧
    (∀ r s2, tryReserve s n = some (r, s2) →
      s2.used = s.used + n ∧ r = n ∧ s2.capacity = s.capacity ∧
      s2.freeList = s.freeList) ∧
    (tryReserve s n = none ↔ s.capacity < s.used + n) ∧
    (s.used ≤ s.capacity → tryReserve s 0 = some (0, s)) := by
  refine ⟨?_, ?_, ?_, ?_⟩
  · unfold tryReserve
    split <;> simp <;> omega
  · intro r s2 hr
    exact tryReserve_some_spec s n r s2 hr
  · unfold tryReserve
    split <;> simp <;> omega
  · intro hle
    unfold tryReserve
    rw [if_neg (by omega)]
    simp

/-- Witness for `try_reserve_spec` at a concrete manager (8192 bytes = 2
blocks) and `n = 1`. -/
theorem try_reserve_spec_witness :
    ((tryReserve (newKv 8192) 1).isSome ↔ (newKv 8192).used + 1 ≤ (newKv 8192).capacity) ∧
    (∀ r s2, tryReserve (newKv 8192) 1 = some (r, s2) →
      s2.used = (newKv 8192).used + 1 ∧ r = 1 ∧ s2.capacity = (newKv 8192).capacity ∧
      s2.freeList = (newKv 8192).freeList) ∧
    (tryReserve (newKv 8192) 1 = none ↔ (newKv 8192).capacity < (newKv 8192).used + 1) ∧
    ((newKv 8192).used ≤ (newKv 8192).capacity → tryReserve (newKv 8192) 0 = some (0, newKv 8192)) :=
  try_reserve_spec (newKv 8192) 1

/-- C3: dropping a live reservation of size `n` decreases `used_blocks` by
exactly `n` (the release is exact: adding `n` back recovers the old count),
removes that reservation from the live set (so it cannot be released again:
`Drop` consumes the value), pushes `n` onto the free-list sketch, and leaves
`capacity_blocks` and `enable_spill` untouched; conservation is maintained. -/
theorem release_exact (sys : SysSt) (i : Nat) (hi : i < sys.live.length)
    (hcons : sys.kv.used = sys.live.sum) :
    (kvStep sys (KvOp.release i)).kv.used + sys.live.get ⟨i, hi⟩ = sys.kv.used ∧
    (kvStep sys (KvOp.release i)).kv.capacity = sys.kv.capacity ∧
    (kvStep sys (KvOp.release i)).kv.enableSpill = sys.kv.enableSpill ∧
    (kvStep sys (KvOp.release i)).kv.freeList
      = sys.kv.freeList ++ [sys.live.get ⟨i, hi⟩] ∧
    (kvStep sys (KvOp.release i)).live = sys.live.eraseIdx i ∧
    (kvStep sys (KvOp.release i)).kv.used = (kvStep sys (KvOp.release i)).live.sum := by
  have hg := get_le_sum sys.live ⟨i, hi⟩
  have he := sum_eraseIdx sys.live i hi
  refine ⟨?_, ?_, ?_, ?_, ?_, ?_⟩ <;>
    simp only [kvStep, dif_pos hi, releaseKv] <;> first | rfl | omega

/-- Witness for `release_exact`: a manager with two used blocks and one live
two-block reservation; dropping it returns `used_blocks` to zero. -/
theorem release_exact_witness :
    (kvStep ⟨⟨10, 2, [], false⟩, [2]⟩ (KvOp.release 0)).kv.used
        + ([2] : List Nat).get ⟨0, by decide⟩ = 2 ∧
    (kvStep ⟨⟨10, 2, [], false⟩, [2]⟩ (KvOp.release 0)).kv.capacity = 10 ∧
    (kvStep ⟨⟨10, 2, [], false⟩, [2]⟩ (KvOp.release 0)).kv.enableSpill = false ∧
    (kvStep ⟨⟨10, 2, [], false⟩, [2]⟩ (KvOp.release 0)).kv.freeList = [] ++ [([2] : List Nat).get ⟨0, by decide⟩] ∧
    (kvStep ⟨⟨10, 2, [], false⟩, [2]⟩ (KvOp.release 0)).live = ([2] : List Nat).eraseIdx 0 ∧
    (kvStep ⟨⟨10, 2, [], false⟩, [2]⟩ (KvOp.release 0)).kv.used
      = (kvStep ⟨⟨10, 2, [], false⟩, [2]⟩ (KvOp.release 0)).live.sum :=
  release_exact ⟨⟨10, 2, [], false⟩, [2]⟩ 0 (by decide) (by decide)

/-! ## Prefix cache hashing (`PrefixCache::hash_prefix`)

```rust
pub fn hash_prefix(&self, text: &str) -> u64 {
    let mut hasher = DefaultHasher::new();
    let slice = if text.len() > 256 { &text[..256] } else { text };
    slice.hash(&mut hasher);
    hasher.finish()
}
```
`DefaultHasher` is `SipHasher13` keyed with `(0, 0)`; `str::hash` feeds the
UTF-8 bytes followed by a `0xFF` terminator byte into the hasher.  The byte
slice `&text[..256]` panics when byte index 256 is not a character boundary;
the panic is modelled as `Except.error ()`. -/

/-- 64-bit wrap-around. -/
def wrap64 (x : Nat) : Nat := x % (2 ^ 64)

/-- 64-bit left rotation of `x < 2 ^ 64` by `n ≤ 64` bits (the high and low
parts occupy disjoint bit ranges, so their disjunction is an addition). -/
def rotl64 (x n : Nat) : Nat := wrap64 (x * 2 ^ n) + x / 2 ^ (64 - n)

/-- The four 64-bit lanes of the SipHash state. -/
structure SipState where
  v0 : Nat
  v1 : Nat
  v2 : Nat
  v3 : Nat

/-- One SipHash mixing round. -/
def sipRound (s : SipState) : SipState :=
  let v0 := wrap64 (s.v0 + s.v1)
  let v1 := rotl64 s.v1 13
  let v1 := Nat.xor v1 v0
  let v0 := rotl64 v0 32
  let v2 := wrap64 (s.v2 + s.v3)
  let v3 := rotl64 s.v3 16
  let v3 := Nat.xor v3 v2
  let v0 := wrap64 (v0 + v3)
  let v3 := rotl64 v3 21
  let v3 := Nat.xor v3 v0
  let v2 := wrap64 (v2 + v1)
  let v1 := rotl64 v1 17
  let v1 := Nat.xor v1 v2
  let v2 := rotl64 v2 32
  ⟨v0, v1, v2, v3⟩

/-- Absorb one 8-byte message word (SipHash-1-3 uses a single compression
round per word). -/
def sipCompress (s : SipState) (m : Nat) : SipState :=
  let s := { s with v3 := Nat.xor s.v3 m }
  let s := sipRound s
  { s with v0 := Nat.xor s.v0 m }

/-- Little-endian value of up to eight bytes. -/
def toLe64 (bs : List Nat) : Nat := bs.foldr (fun b acc => acc * 256 + b) 0

/-- Absorb all full 8-byte words of the message, returning the state and the
remaining tail bytes.  Fuel is the byte count, so the recursion is structural
and kernel-evaluable. -/
def sipChunksGo : Nat → SipState → List Nat → SipState × List Nat
  | 0, st, bs => (st, bs)
  | f + 1, st, bs =>
    if 8 ≤ bs.length then
      sipChunksGo f (sipCompress st (toLe64 (bs.take 8))) (bs.drop 8)
    else (st, bs)

/-- SipHash-1-3 with keys `(k0, k1)` over a byte message, as implemented by
Rust's `DefaultHasher` (`v2 ^= 0xEE` finalization variant, three final
rounds, length byte in the top byte of the last word). -/
def sipHash13 (k0 k1 : Nat) (msg : List Nat) : Nat :=
  let st : SipState :=
    ⟨Nat.xor k0 0x736f6d6570736575, Nat.xor k1 0x646f72616e646f6d,
     Nat.xor k0 0x6c7967656e657261, Nat.xor k1 0x7465646279746573⟩
  let r := sipChunksGo msg.length st msg
  let st := r.1
  let b := (msg.length % 256) * 0x100000000000000 + toLe64 r.2
  let st := sipCompress st b
  let st := { st with v2 := Nat.xor st.v2 0xEE }
  let st := sipRound (sipRound (sipRound st))
  wrap64 (Nat.xor (Nat.xor st.v0 st.v1) (Nat.xor st.v2 st.v3))

/-- What `str::hash` feeds into `DefaultHasher::new()`: the UTF-8 bytes plus
a trailing `0xFF` byte, hashed with SipHash-1-3 under keys `(0, 0)`. -/
def strHash (bs : List Nat) : Nat := sipHash13 0 0 (bs ++ [0xFF])

/-- Is byte index `i` a character boundary of the string (Rust
`str::is_char_boundary`, with indices past the end treated as the slicing
check treats them)? -/
def isBoundary : Str → Nat → Bool
  | _, 0 => true
  | [], _ + 1 => false
  | c :: cs, i + 1 =>
    let w := (utf8EncodeChar c).length
    if i + 1 < w then false else isBoundary cs (i + 1 - w)

/-- `PrefixCache::hash_prefix`: hash the first up-to-256 bytes.  The Rust
slice expression `&text[..256]` panics (`Except.error ()`) when the string is
longer than 256 bytes and byte 256 falls inside a multi-byte character. -/
def hashPref (s : Str) : Except Unit Nat :=
  let bytes := utf8Bytes s
  if 256 < bytes.length then
    if isBoundary s 256 then Except.ok (strHash (bytes.take 256))
    else Except.error ()
  else Except.ok (strHash bytes)

/-- 255 ASCII bytes (`a`) followed by `é` (U+00E9, two UTF-8 bytes): a valid
257-byte UTF-8 string whose byte index 256 is not a character boundary. -/
def badPrompt : Str := List.replicate 255 97 ++ [0xE9]

/-- C7 (code bug): `hash_prefix` panics on `badPrompt`, a valid UTF-8 string
longer than 256 bytes whose byte 256 is mid-character — `&text[..256]` is not
a safe truncation.  The claim (and the spec's no-panic policy) says the hash
of the first up-to-256 bytes is returned for every input. -/
theorem hash_pref_panics_on_bad_boundary :
    hashPref badPrompt = Except.error () ∧
    256 < utf8Len badPrompt ∧ ValidStr badPrompt := by
  refine ⟨rfl, by decide, by decide⟩

/-! ## Scheduler admission (`SchedulerV1::enqueue`, scheduler.rs lines 56-66)

```rust
let est_prompt_tokens = std::cmp::max(1, prompt.len() / 4);
let prefix_hash = handle.prefix.hash_prefix(&prompt);
handle.prefix.note(prefix_hash);
let mut total_tokens = est_prompt_tokens + max_tokens;
if handle.prefix.is_common(prefix_hash) { total_tokens = total_tokens.saturating_sub(32); }
let predicted_blocks = handle.kv.tokens_to_blocks(total_tokens);
let reservation = handle.kv.try_reserve(predicted_blocks);
if reservation.is_none() {
    return String::from("SERVER_BUSY: insufficient KV capacity");
}
let (tx, rx) = oneshot::channel();
let _ = handle.tx.send(Request { prompt, respond: tx, max_tokens, reservation }).await;
```
The `PrefixCache` occurrence counts are a function from 64-bit hash to count
(`HashMap<u64, usize>` with missing keys read as 0). -/

/-- `PrefixCache::note(h)`: increment the count for `h`. -/
def noteCount (counts : Nat → Nat) (h : Nat) : Nat → Nat :=
  fun h2 => if h2 = h then counts h + 1 else counts h2

/-- `PrefixCache::is_common(h)`: count at least 2. -/
def isCommon (counts : Nat → Nat) (h : Nat) : Bool := decide (2 ≤ counts h)

/-- `est_prompt_tokens` for a prompt of `len` bytes. -/
def estTokens (len : Nat) : Nat := max 1 (len / 4)

/-- `total_tokens` after the common-prefix discount, given the count for the
prompt's hash after this call's own `note` (`saturating_sub` is `Nat`
subtraction). -/
def admissionTotal (noted len m : Nat) : Nat :=
  if 2 ≤ noted then estTokens len + m - 32 else estTokens len + m

/-- `predicted_blocks`. -/
def admissionBlocks (noted len m : Nat) : Nat :=
  tokensToBlocks (admissionTotal noted len m)

/-- A request as the scheduler queue holds it (the one-shot reply channel has
no pure content; the reservation is its block count). -/
structure QReq where
  prompt : Str
  maxTokens : Nat
  resBlocks : Nat
deriving Repr, DecidableEq

/-- The scheduler-visible shared state touched by `enqueue`'s admission. -/
structure SchedState where
  kv : KvSt
  counts : Nat → Nat
  queue : List QReq

/-- Immediate outcome of `enqueue`'s admission: the busy sentinel string, or
a request sent on the queue carrying a reservation of the given size. -/
inductive EnqOut where
  | busy (msg : String)
  | sent (resBlocks : Nat)
deriving Repr, DecidableEq

/-- The admission prefix of `SchedulerV1::enqueue` (everything up to and
including the queue send).  A panic of `hash_prefix` propagates. -/
def enqueueStep (st : SchedState) (p : Str) (m : Nat) :
    Except Unit (EnqOut × SchedState) :=
  match hashPref p with
  | Except.error e => Except.error e
  | Except.ok h =>
    let counts2 := noteCount st.counts h
    let blocks := admissionBlocks (counts2 h) (utf8Len p) m
    match tryReserve st.kv blocks with
    | none =>
      Except.ok (EnqOut.busy "SERVER_BUSY: insufficient KV capacity",
        { st with counts := counts2 })
    | some (r, kv2) =>
      Except.ok (EnqOut.sent r,
        { kv := kv2, counts := counts2,
          queue := st.queue ++ [{ prompt := p, maxTokens := m, resBlocks := r }] })

lemma noteCount_self (counts : Nat → Nat) (h : Nat) :
    noteCount counts h h = counts h + 1 := by
  simp [noteCount]

/-- C4: the admission step requests exactly
`admissionBlocks (count-after-note) (byte length) m` blocks from the KV
manager; that number is the ceiling of `total / 32` where
`total = max 1 (len / 4) + m`, reduced by 32 (saturating at 0) iff the
prompt's hash is common (count at least 2 after this call's own note); the
cited example computes 5 blocks; and a repeated submission (larger count)
never requests more blocks than an earlier one. -/
theorem enqueue_requests_predicted_blocks (st : SchedState) (p : Str) (m h : Nat)
    (hh : hashPref p = Except.ok h) :
    (∀ r st2, enqueueStep st p m = Except.ok (EnqOut.sent r, st2) →
      r = admissionBlocks (st.counts h + 1) (utf8Len p) m) ∧
    (∀ msg st2, enqueueStep st p m = Except.ok (EnqOut.busy msg, st2) →
      tryReserve st.kv (admissionBlocks (st.counts h + 1) (utf8Len p) m) = none) ∧
    (∀ noted len,
      admissionTotal noted len m
        = (if 2 ≤ noted then max 1 (len / 4) + m - 32 else max 1 (len / 4) + m) ∧
      admissionTotal noted len m ≤ 32 * admissionBlocks noted len m ∧
      (∀ j, admissionTotal noted len m ≤ 32 * j → admissionBlocks noted len m ≤ j)) ∧
    admissionBlocks 1 400 32 = 5 ∧
    (∀ c1 c2 len, c1 ≤ c2 → admissionBlocks c2 len m ≤ admissionBlocks c1 len m) := by
  refine ⟨?_, ?_, ?_, by decide, ?_⟩
  · intro r st2 hr
    unfold enqueueStep at hr
    rw [hh] at hr
    simp only [noteCount_self] at hr
    cases ht : tryReserve st.kv (admissionBlocks (st.counts h + 1) (utf8Len p) m) with
    | none => rw [ht] at hr; exact absurd hr (by simp)
    | some pr =>
      obtain ⟨r2, kv2⟩ := pr
      rw [ht] at hr
      simp only [Except.ok.injEq, Prod.mk.injEq, EnqOut.sent.injEq] at hr
      have hr2 := tryReserve_some_spec st.kv
        (admissionBlocks (st.counts h + 1) (utf8Len p) m) r2 kv2 ht
      have hra := hr.1
      have hrb := hr2.2.1
      omega
  · intro msg st2 hr
    unfold enqueueStep at hr
    rw [hh] at hr
    simp only [noteCount_self] at hr
    cases ht : tryReserve st.kv (admissionBlocks (st.counts h + 1) (utf8Len p) m) with
    | none => rfl
    | some pr => rw [ht] at hr; exact absurd hr (by simp)
  · intro noted len
    refine ⟨by simp [admissionTotal, estTokens], ?_, ?_⟩
    · simp only [admissionBlocks, tokensToBlocks, TOKENS_PER_BLOCK]
      omega
    · intro j hj
      simp only [admissionBlocks, tokensToBlocks, TOKENS_PER_BLOCK] at *
      omega
  · intro c1 c2 len hc
    simp only [admissionBlocks, admissionTotal, tokensToBlocks, TOKENS_PER_BLOCK]
    split <;> split <;> omega

/-- C5: when `try_reserve` fails, `enqueue` returns exactly the literal
`"SERVER_BUSY: insufficient KV capacity"`, nothing is appended to the queue,
the KV manager state (in particular `used_blocks`) is unchanged, and the
prefix count for the prompt's hash has still been incremented. -/
theorem enqueue_busy_on_reserve_failure (st : SchedState) (p : Str) (m h : Nat)
    (hh : hashPref p = Except.ok h)
    (hfail : tryReserve st.kv
      (admissionBlocks (st.counts h + 1) (utf8Len p) m) = none) :
    enqueueStep st p m
      = Except.ok (EnqOut.busy "SERVER_BUSY: insufficient KV capacity",
          { kv := st.kv, counts := noteCount st.counts h, queue := st.queue }) ∧
    noteCount st.counts h h = st.counts h + 1 := by
  constructor
  · unfold enqueueStep
    rw [hh]
    simp only [noteCount_self]
    rw [hfail]
  · exact noteCount_self st.counts h

/-- A 400-byte ASCII prompt (the example of scenario S1). -/
def p400 : Str := List.replicate 400 97

/-- Its 64-bit prefix hash (computable; hashing succeeds on ASCII). -/
def p400Hash : Nat := (hashPref p400).toOption.getD 0

/-- A fresh scheduler state with 10 KV blocks and no seen prefixes. -/
def stFresh : SchedState := { kv := newKv 40960, counts := fun _ => 0, queue := [] }

/-- Witness for `enqueue_requests_predicted_blocks`: hashing the 400-byte
prompt succeeds, a first submission with `max_tokens = 32` predicts 5 blocks,
and a repeat predicts no more. -/
theorem enqueue_requests_predicted_blocks_witness :
    hashPref p400 = Except.ok p400Hash ∧
    admissionBlocks 1 400 32 = 5 ∧
    admissionBlocks 2 400 32 ≤ admissionBlocks 1 400 32 :=
  ⟨rfl, (enqueue_requests_predicted_blocks stFresh p400 32 p400Hash rfl).2.2.2.1,
    (enqueue_requests_predicted_blocks stFresh p400 32 p400Hash rfl).2.2.2.2
      1 2 400 (by omega)⟩

/-- A single-byte prompt. -/
def pA : Str := [97]

/-- Its 64-bit prefix hash. -/
def pAHash : Nat := (hashPref pA).toOption.getD 0

/-- A scheduler state whose KV manager has zero capacity. -/
def stZeroCap : SchedState := { kv := newKv 0, counts := fun _ => 0, queue := [] }

/-- Witness for `enqueue_busy_on_reserve_failure` at a zero-capacity manager:
the admission returns the busy sentinel and only the prefix count changes. -/
theorem enqueue_busy_on_reserve_failure_witness :
    enqueueStep stZeroCap pA 0
      = Except.ok (EnqOut.busy "SERVER_BUSY: insufficient KV capacity",
          { kv := stZeroCap.kv, counts := noteCount stZeroCap.counts pAHash,
            queue := stZeroCap.queue }) ∧
    noteCount stZeroCap.counts pAHash pAHash = stZeroCap.counts pAHash + 1 :=
  enqueue_busy_on_reserve_failure stZeroCap pA 0 pAHash rfl rfl

/-! ## Backend contract and generation driver

`InferenceBackend` (runner-backend/src/lib.rs) — the generation driver only
uses `tokenize` and `detokenize`, so the model carries exactly those two
capabilities (`load_model`, `forward` and `kv_usage` are not touched by any
claim).  `generate_once` (runner-core/src/decode.rs):

```rust
let _ = max_tokens; // TODO: use with real step loop
let tokens = backend.tokenize(prompt).unwrap_or_default();
let _ = sample_top_k_top_p::<rand::rngs::StdRng>(&[0.0_f32; 1], 0, 1.0, 1.0, None);
let text = backend.detokenize(&tokens).unwrap_or_else(|_| prompt.to_string());
Ok(text)
```
The sampler invocation's result is discarded (`let _ =`), so it is elided
here; `max_tokens` is likewise unused. -/

structure Backend where
  tokenize : Str → Except String (List Nat)
  detokenize : List Nat → Except String Str

/-- `backend.tokenize(prompt).unwrap_or_default()`: the token list actually
used, with a tokenize error replaced by the empty list. -/
def tokensFor (b : Backend) (p : Str) : List Nat :=
  match b.tokenize p with
  | Except.ok t => t
  | Except.error _ => []

/-- `generate_once(backend, prompt, max_tokens)`. -/
def generate_once (b : Backend) (p : Str) (maxTokens : Nat) : Except String Str :=
  let _ := maxTokens
  let tokens := tokensFor b p
  let text :=
    match b.detokenize tokens with
    | Except.ok s => s
    | Except.error _ => p
  Except.ok text

/-- The scheduler's reply site: `text.unwrap_or_default()` over the driver's
result (`String::default()` is the empty string). -/
def unwrapOrDefault (e : Except String Str) : Str :=
  match e with
  | Except.ok s => s
  | Except.error _ => []

/-- C10: `generate_once` never returns an error for any backend: a tokenize
failure is replaced by the empty token list, a detokenize failure by the
prompt text, so the `unwrap_or_default` at the scheduler's reply site never
takes its default branch. -/
theorem generate_once_never_errs (b : Backend) (p : Str) (m : Nat) :
    (∃ t, generate_once b p m = Except.ok t ∧
      unwrapOrDefault (generate_once b p m) = t) ∧
    (∀ e, generate_once b p m ≠ Except.error e) ∧
    (∀ e, b.tokenize p = Except.error e → tokensFor b p = []) ∧
    (∀ e, b.detokenize (tokensFor b p) = Except.error e →
      generate_once b p m = Except.ok p) := by
  refine ⟨⟨_, rfl, rfl⟩, ?_, ?_, ?_⟩
  · intro e he
    exact absurd he (by simp [generate_once])
  · intro e he
    simp [tokensFor, he]
  · intro e he
    simp [generate_once, he]

/-- A backend whose `tokenize` works (byte tokens) but whose `detokenize`
always fails. -/
def errBackend : Backend :=
  { tokenize := fun p => Except.ok (utf8Bytes p)
  , detokenize := fun _ => Except.error "backend failure" }

/-- The two-character prompt `"hi"`. -/
def hiStr : Str := [104, 105]

/-- C6 (counterexample): a backend whose `detokenize` errors does NOT produce
the empty string — `generate_once` falls back to the prompt text (`"hi"`),
refuting "backend errors are converted to an empty-string result". -/
theorem detok_error_yields_prompt_not_empty :
    errBackend.detokenize (tokensFor errBackend hiStr) = Except.error "backend failure" ∧
    generate_once errBackend hiStr 4 = Except.ok hiStr ∧
    hiStr ≠ ([] : Str) := by
  refine ⟨rfl, rfl, by decide⟩

/-- C6 (amended): a tokenize error is swallowed by substituting the empty
token list, and a detokenize error is swallowed by substituting the prompt
text (not the empty string); the reply is empty only when the substituted
text itself is empty. -/
theorem backend_error_fallbacks (b : Backend) (p : Str) (m : Nat) :
    (∀ e, b.tokenize p = Except.error e → tokensFor b p = []) ∧
    (∀ e, b.detokenize (tokensFor b p) = Except.error e →
      generate_once b p m = Except.ok p ∧
      unwrapOrDefault (generate_once b p m) = p) := by
  constructor
  · intro e he
    simp [tokensFor, he]
  · intro e he
    constructor <;> simp [generate_once, unwrapOrDefault, he]

/-- Witness for `backend_error_fallbacks` at the failing backend and `"hi"`. -/
theorem backend_error_fallbacks_witness :
    (∀ e, errBackend.tokenize hiStr = Except.error e → tokensFor errBackend hiStr = []) ∧
    (∀ e, errBackend.detokenize (tokensFor errBackend hiStr) = Except.error e →
      generate_once errBackend hiStr 4 = Except.ok hiStr ∧
      unwrapOrDefault (generate_once errBackend hiStr 4) = hiStr) :=
  backend_error_fallbacks errBackend hiStr 4

/-- A backend that fails on both operations. -/
def allErrBackend : Backend :=
  { tokenize := fun _ => Except.error "tokenizer down"
  , detokenize := fun _ => Except.error "detokenizer down" }

/-- Witness for `generate_once_never_errs` at a backend that fails both
operations: the result is still `Except.ok`. -/
theorem generate_once_never_errs_witness :
    (∃ t, generate_once allErrBackend hiStr 2 = Except.ok t ∧
      unwrapOrDefault (generate_once allErrBackend hiStr 2) = t) ∧
    (∀ e, generate_once allErrBackend hiStr 2 ≠ Except.error e) ∧
    (∀ e, allErrBackend.tokenize hiStr = Except.error e → tokensFor allErrBackend hiStr = []) ∧
    (∀ e, allErrBackend.detokenize (tokensFor allErrBackend hiStr) = Except.error e →
      generate_once allErrBackend hiStr 2 = Except.ok hiStr) :=
  generate_once_never_errs allErrBackend hiStr 2

/-! ## Mock backend (`runner-backend/src/lib.rs`, `mock` module)

```rust
fn tokenize(&self, text: &str) -> Result<Vec<u32>> {
    Ok(text.as_bytes().iter().map(|b| *b as u32).collect())
}
fn detokenize(&self, tokens: &[u32]) -> Result<String> {
    let bytes: Vec<u8> = tokens.iter().map(|t| *t as u8).collect();
    Ok(String::from_utf8_lossy(&bytes).to_string())
}
```
`*t as u8` truncates modulo 256.  `String::from_utf8_lossy` decodes UTF-8,
replacing each maximal invalid subpart with U+FFFD; on valid UTF-8 it is the
identity, which is the only behaviour the round-trip claim exercises. -/

/-- Is `b` a UTF-8 continuation byte (`0x80..=0xBF`)? -/
def isCont (b : Nat) : Bool := decide (0x80 ≤ b ∧ b < 0xC0)

/-- Allowed second byte after a three-byte lead (the standard UTF-8 range
table: `E0` needs `A0..=BF`, `ED` needs `80..=9F`, the rest `80..=BF`). -/
def valid3snd (b b1 : Nat) : Bool :=
  if b = 0xE0 then decide (0xA0 ≤ b1 ∧ b1 < 0xC0)
  else if b = 0xED then decide (0x80 ≤ b1 ∧ b1 < 0xA0)
  else isCont b1

/-- Allowed second byte after a four-byte lead (`F0` needs `90..=BF`, `F4`
needs `80..=8F`, `F1..=F3` need `80..=BF`). -/
def valid4snd (b b1 : Nat) : Bool :=
  if b = 0xF0 then decide (0x90 ≤ b1 ∧ b1 < 0xC0)
  else if b = 0xF4 then decide (0x80 ≤ b1 ∧ b1 < 0x90)
  else isCont b1

/-- Two-byte sequence: continuation byte then combine. -/
def decode2 (b : Nat) : List Nat → Nat × List Nat
  | [] => (0xFFFD, [])
  | b1 :: r1 =>
    if isCont b1 then ((b - 0xC0) * 0x40 + (b1 - 0x80), r1)
    else (0xFFFD, b1 :: r1)

/-- Third byte of a three-byte sequence. -/
def decode3tl (b b1 : Nat) : List Nat → Nat × List Nat
  | [] => (0xFFFD, [])
  | b2 :: r2 =>
    if isCont b2 then
      ((b - 0xE0) * 0x1000 + (b1 - 0x80) * 0x40 + (b2 - 0x80), r2)
    else (0xFFFD, b2 :: r2)

/-- Three-byte sequence: range-checked second byte, then the tail. -/
def decode3 (b : Nat) : List Nat → Nat × List Nat
  | [] => (0xFFFD, [])
  | b1 :: r1 => if valid3snd b b1 then decode3tl b b1 r1 else (0xFFFD, b1 :: r1)

/-- Fourth byte of a four-byte sequence. -/
def decode4tl2 (b b1 b2 : Nat) : List Nat → Nat × List Nat
  | [] => (0xFFFD, [])
  | b3 :: r3 =>
    if isCont b3 then
      ((b - 0xF0) * 0x40000 + (b1 - 0x80) * 0x1000 + (b2 - 0x80) * 0x40
        + (b3 - 0x80), r3)
    else (0xFFFD, b3 :: r3)

/-- Third byte of a four-byte sequence. -/
def decode4tl (b b1 : Nat) : List Nat → Nat × List Nat
  | [] => (0xFFFD, [])
  | b2 :: r2 => if isCont b2 then decode4tl2 b b1 b2 r2 else (0xFFFD, b2 :: r2)

/-- Four-byte sequence: range-checked second byte, then the tail. -/
def decode4 (b : Nat) : List Nat → Nat × List Nat
  | [] => (0xFFFD, [])
  | b1 :: r1 => if valid4snd b b1 then decode4tl b b1 r1 else (0xFFFD, b1 :: r1)

/-- Decode one scalar (or one U+FFFD replacement for a maximal invalid
subpart) from the byte `b` followed by `rest`; returns the scalar and the
undecoded remainder. -/
def decodeOne (b : Nat) (rest : List Nat) : Nat × List Nat :=
  if b < 0x80 then (b, rest)
  else if b < 0xC2 then (0xFFFD, rest)
  else if b < 0xE0 then decode2 b rest
  else if b < 0xF0 then decode3 b rest
  else if b ≤ 0xF4 then decode4 b rest
  else (0xFFFD, rest)

lemma decode2_len (b : Nat) (l : List Nat) : (decode2 b l).2.length ≤ l.length := by
  cases l with
  | nil => simp [decode2]
  | cons b1 r1 =>
    simp only [decode2]
    split <;> simp

lemma decode3tl_len (b b1 : Nat) (l : List Nat) :
    (decode3tl b b1 l).2.length ≤ l.length := by
  cases l with
  | nil => simp [decode3tl]
  | cons b2 r2 =>
    simp only [decode3tl]
    split <;> simp

lemma decode3_len (b : Nat) (l : List Nat) : (decode3 b l).2.length ≤ l.length := by
  cases l with
  | nil => simp [decode3]
  | cons b1 r1 =>
    simp only [decode3]
    split
    · have := decode3tl_len b b1 r1
      simp only [List.length_cons]
      omega
    · simp

lemma decode4tl2_len (b b1 b2 : Nat) (l : List Nat) :
    (decode4tl2 b b1 b2 l).2.length ≤ l.length := by
  cases l with
  | nil => simp [decode4tl2]
  | cons b3 r3 =>
    simp only [decode4tl2]
    split <;> simp

lemma decode4tl_len (b b1 : Nat) (l : List Nat) :
    (decode4tl b b1 l).2.length ≤ l.length := by
  cases l with
  | nil => simp [decode4tl]
  | cons b2 r2 =>
    simp only [decode4tl]
    split
    · have := decode4tl2_len b b1 b2 r2
      simp only [List.length_cons]
      omega
    · simp

lemma decode4_len (b : Nat) (l : List Nat) : (decode4 b l).2.length ≤ l.length := by
  cases l with
  | nil => simp [decode4]
  | cons b1 r1 =>
    simp only [decode4]
    split
    · have := decode4tl_len b b1 r1
      simp only [List.length_cons]
      omega
    · simp

lemma decodeOne_len (b : Nat) (rest : List Nat) :
    (decodeOne b rest).2.length ≤ rest.length := by
  unfold decodeOne
  split
  · simp
  · split
    · simp
    · split
      · exact decode2_len b rest
      · split
        · exact decode3_len b rest
        · split
          · exact decode4_len b rest
          · simp

/-- Fuel-indexed decoding loop (fuel bounds the byte count, making the
recursion structural and kernel-evaluable). -/
def utf8DecodeGo : Nat → List Nat → List Nat
  | 0, _ => []
  | _ + 1, [] => []
  | f + 1, b :: rest =>
    let s := decodeOne b rest
    s.1 :: utf8DecodeGo f s.2

/-- `String::from_utf8_lossy`, as a scalar-value list. -/
def utf8DecodeLossy (l : List Nat) : List Nat := utf8DecodeGo l.length l

lemma utf8DecodeGo_fuel_irrel (f : Nat) :
    ∀ (g : Nat) (l : List Nat), l.length ≤ f → l.length ≤ g →
      utf8DecodeGo f l = utf8DecodeGo g l := by
  induction f with
  | zero =>
    intro g l hf hg
    have : l = [] := by
      cases l with
      | nil => rfl
      | cons a t => simp at hf
    subst this
    cases g <;> rfl
  | succ f ih =>
    intro g l hf hg
    cases l with
    | nil => cases g <;> rfl
    | cons b rest =>
      cases g with
      | zero => simp at hg
      | succ g =>
        have h2 := decodeOne_len b rest
        have hf1 : rest.length ≤ f := by simpa using hf
        have hg1 : rest.length ≤ g := by simpa using hg
        simp only [utf8DecodeGo]
        exact congrArg _ (ih g (decodeOne b rest).2
          (le_trans h2 hf1) (le_trans h2 hg1))

lemma utf8DecodeGo_fuel (f : Nat) (l : List Nat) (h : l.length ≤ f) :
    utf8DecodeGo f l = utf8DecodeLossy l :=
  utf8DecodeGo_fuel_irrel f l.length l h (le_refl _)

lemma utf8DecodeLossy_cons (b : Nat) (rest : List Nat) :
    utf8DecodeLossy (b :: rest)
      = (decodeOne b rest).1 :: utf8DecodeLossy (decodeOne b rest).2 := by
  have h2 := decodeOne_len b rest
  show utf8DecodeGo (b :: rest).length (b :: rest) = _
  simp only [List.length_cons, utf8DecodeGo]
  rw [utf8DecodeGo_fuel _ _ h2]

lemma isCont_true (b : Nat) (h : 0x80 ≤ b ∧ b < 0xC0) : isCont b = true := by
  simp only [isCont, decide_eq_true_eq]
  exact h

/-- Decoding consumes a just-encoded valid scalar verbatim. -/
lemma decodeOne_encode (c : Nat) (h1 : c < 0x110000) (h2 : c < 0xD800 ∨ 0xE000 ≤ c)
    (t : List Nat) :
    utf8DecodeLossy (utf8EncodeChar c ++ t) = c :: utf8DecodeLossy t := by
  by_cases hA : c < 0x80
  · have he : utf8EncodeChar c = [c] := by simp [utf8EncodeChar, hA]
    rw [he, List.singleton_append, utf8DecodeLossy_cons]
    simp only [decodeOne, if_pos hA]
  · by_cases hB : c < 0x800
    · have he : utf8EncodeChar c = [0xC0 + c / 0x40, 0x80 + c % 0x40] := by
        rw [utf8EncodeChar, if_neg hA, if_pos hB]
      rw [he, List.cons_append, List.singleton_append, utf8DecodeLossy_cons]
      have hd : decodeOne (0xC0 + c / 0x40) ((0x80 + c % 0x40) :: t) = (c, t) := by
        unfold decodeOne
        rw [if_neg (by omega), if_neg (by omega), if_pos (by omega)]
        simp only [decode2]
        rw [if_pos (isCont_true (0x80 + c % 0x40) (by omega))]
        have hval : (0xC0 + c / 0x40 - 0xC0) * 0x40 + (0x80 + c % 0x40 - 0x80) = c := by
          omega
        rw [hval]
      rw [hd]
    · by_cases hC : c < 0x10000
      · have he : utf8EncodeChar c
            = [0xE0 + c / 0x1000, 0x80 + c / 0x40 % 0x40, 0x80 + c % 0x40] := by
          rw [utf8EncodeChar, if_neg hA, if_neg hB, if_pos hC]
        rw [he, List.cons_append, List.cons_append, List.singleton_append,
          utf8DecodeLossy_cons]
        have hd : decodeOne (0xE0 + c / 0x1000)
            ((0x80 + c / 0x40 % 0x40) :: (0x80 + c % 0x40) :: t) = (c, t) := by
          unfold decodeOne
          rw [if_neg (by omega), if_neg (by omega), if_neg (by omega),
            if_pos (by omega)]
          have hv : valid3snd (0xE0 + c / 0x1000) (0x80 + c / 0x40 % 0x40) = true := by
            unfold valid3snd isCont
            split
            · rename_i hE0
              simp only [decide_eq_true_eq]
              omega
            · split
              · rename_i hNE hED
                simp only [decide_eq_true_eq]
                omega
              · simp only [decide_eq_true_eq]
                omega
          simp only [decode3]
          rw [if_pos hv]
          simp only [decode3tl]
          rw [if_pos (isCont_true (0x80 + c % 0x40) (by omega))]
          have hval : (0xE0 + c / 0x1000 - 0xE0) * 0x1000
              + (0x80 + c / 0x40 % 0x40 - 0x80) * 0x40
              + (0x80 + c % 0x40 - 0x80) = c := by
            omega
          rw [hval]
        rw [hd]
      · have he : utf8EncodeChar c
            = [0xF0 + c / 0x40000, 0x80 + c / 0x1000 % 0x40,
               0x80 + c / 0x40 % 0x40, 0x80 + c % 0x40] := by
          rw [utf8EncodeChar, if_neg hA, if_neg hB, if_neg hC]
        rw [he, List.cons_append, List.cons_append, List.cons_append,
          List.singleton_append, utf8DecodeLossy_cons]
        have hd : decodeOne (0xF0 + c / 0x40000)
            ((0x80 + c / 0x1000 % 0x40) :: (0x80 + c / 0x40 % 0x40)
              :: (0x80 + c % 0x40) :: t) = (c, t) := by
          unfold decodeOne
          rw [if_neg (by omega), if_neg (by omega), if_neg (by omega),
            if_neg (by omega), if_pos (by omega)]
          have hv : valid4snd (0xF0 + c / 0x40000) (0x80 + c / 0x1000 % 0x40) = true := by
            unfold valid4snd isCont
            split
            · rename_i hF0
              simp only [decide_eq_true_eq]
              omega
            · split
              · rename_i hNE hF4
                simp only [decide_eq_true_eq]
                omega
              · simp only [decide_eq_true_eq]
                omega
          simp only [decode4]
          rw [if_pos hv]
          simp only [decode4tl]
          rw [if_pos (isCont_true (0x80 + c / 0x40 % 0x40) (by omega))]
          simp only [decode4tl2]
          rw [if_pos (isCont_true (0x80 + c % 0x40) (by omega))]
          have hval : (0xF0 + c / 0x40000 - 0xF0) * 0x40000
              + (0x80 + c / 0x1000 % 0x40 - 0x80) * 0x1000
              + (0x80 + c / 0x40 % 0x40 - 0x80) * 0x40
              + (0x80 + c % 0x40 - 0x80) = c := by
            omega
          rw [hval]
        rw [hd]

/-- On the bytes of a valid string the lossy decoder is the identity. -/
lemma utf8DecodeLossy_utf8Bytes (s : Str) (hs : ValidStr s) :
    utf8DecodeLossy (utf8Bytes s) = s := by
  induction s with
  | nil => rfl
  | cons c cs ih =>
    have hc : ValidChar c := hs c (by simp)
    have hcs : ValidStr cs := by
      intro d hd
      exact hs d (List.mem_cons_of_mem c hd)
    show utf8DecodeLossy ((c :: cs).flatMap utf8EncodeChar) = c :: cs
    rw [List.flatMap_cons]
    rw [decodeOne_encode c hc.1 hc.2 (cs.flatMap utf8EncodeChar)]
    exact congrArg (c :: ·) (ih hcs)

/-- Every byte an encoded valid scalar produces fits in a `u8`. -/
lemma utf8EncodeChar_lt_256 (c : Nat) (h1 : c < 0x110000) :
    ∀ b ∈ utf8EncodeChar c, b < 256 := by
  intro b hb
  unfold utf8EncodeChar at hb
  split at hb
  · simp at hb; omega
  · split at hb
    · simp at hb
      rcases hb with hb | hb <;> omega
    · split at hb
      · simp at hb
        rcases hb with hb | hb | hb <;> omega
      · simp at hb
        rcases hb with hb | hb | hb | hb <;> omega

lemma map_mod_256_id (l : List Nat) (h : ∀ b ∈ l, b < 256) :
    l.map (fun t => t % 256) = l := by
  induction l with
  | nil => rfl
  | cons a t ih =>
    have ha := h a (List.mem_cons_self a t)
    have ht : ∀ b ∈ t, b < 256 := by
      intro b hb
      exact h b (List.mem_cons_of_mem a hb)
    simp only [List.map_cons, Nat.mod_eq_of_lt ha, ih ht]

/-- `u32 → u8` truncation is the identity on the bytes of a valid string. -/
lemma utf8Bytes_mod_256 (s : Str) (hs : ValidStr s) :
    (utf8Bytes s).map (fun t => t % 256) = utf8Bytes s := by
  apply map_mod_256_id
  intro b hb
  rw [utf8Bytes, List.mem_flatMap] at hb
  obtain ⟨c, hc, hbc⟩ := hb
  exact utf8EncodeChar_lt_256 c (hs c hc).1 b hbc

/-- `MockBackend`: byte-value tokenization and lossy UTF-8 detokenization. -/
def mockBackend : Backend :=
  { tokenize := fun p => Except.ok (utf8Bytes p)
  , detokenize := fun toks =>
      Except.ok (utf8DecodeLossy (toks.map (fun t => t % 256))) }

/-- C8: for every valid UTF-8 string, the mock backend tokenizes to one token
id per byte (the byte values themselves), detokenize inverts tokenize
(round-trip identity), and consequently `generate_once` with the mock backend
returns the prompt text. -/
theorem mock_roundtrip (p : Str) (hp : ValidStr p) (m : Nat) :
    mockBackend.tokenize p = Except.ok (utf8Bytes p) ∧
    (∀ toks, mockBackend.tokenize p = Except.ok toks → toks.length = utf8Len p) ∧
    mockBackend.detokenize (utf8Bytes p) = Except.ok p ∧
    generate_once mockBackend p m = Except.ok p := by
  have hdetok : mockBackend.detokenize (utf8Bytes p) = Except.ok p := by
    show Except.ok (utf8DecodeLossy ((utf8Bytes p).map (fun t => t % 256)))
      = Except.ok p
    rw [utf8Bytes_mod_256 p hp, utf8DecodeLossy_utf8Bytes p hp]
  refine ⟨rfl, ?_, hdetok, ?_⟩
  · intro toks htoks
    have hh : utf8Bytes p = toks := by
      have := htoks
      simp only [mockBackend, Except.ok.injEq] at this
      exact this
    rw [← hh]
    rfl
  · show Except.ok (utf8DecodeLossy ((utf8Bytes p).map (fun t => t % 256)))
      = Except.ok p
    rw [utf8Bytes_mod_256 p hp, utf8DecodeLossy_utf8Bytes p hp]

/-- `"hé€😀"`: one scalar of each UTF-8 encoded width. -/
def mixStr : Str := [104, 233, 0x20AC, 0x1F600]

/-- Witness for `mock_roundtrip` on a prompt mixing 1-, 2-, 3- and 4-byte
characters. -/
theorem mock_roundtrip_witness :
    mockBackend.tokenize mixStr = Except.ok (utf8Bytes mixStr) ∧
    (∀ toks, mockBackend.tokenize mixStr = Except.ok toks →
      toks.length = utf8Len mixStr) ∧
    mockBackend.detokenize (utf8Bytes mixStr) = Except.ok mixStr ∧
    generate_once mockBackend mixStr 3 = Except.ok mixStr :=
  mock_roundtrip mixStr (by decide) 3

/-! ## Sampler (`runner-core/src/sampler.rs`)

```rust
pub fn sample_top_k_top_p<R: Rng + ?Sized>(
    logits: &[f32], top_k: usize, top_p: f32, temperature: f32, seed: Option<u64>,
) -> usize
```
The `f32` arithmetic (division, `exp`, `max`, comparison) is kept abstract as
a structure of operations on a scalar type `F`: no claim depends on the
numeric values, only on the data flow.  The single `rng.gen()` draw is
`draw s` where `s` is the 64-bit seed; when `seed` is `None` the Rust code
seeds from OS entropy, modelled by the explicit `entropy` argument — the
determinism claim is precisely that the result does not depend on `entropy`
when a seed is supplied.  `partial_cmp(..).unwrap()` is modelled by a total
comparator (the model does not reproduce the NaN panic). -/

structure SampleOps (F : Type) where
  fdiv : F → F → F
  fadd : F → F → F
  fexp : F → F
  fzero : F
  fone : F
  eps4 : F
  eps9 : F
  fmax : F → F → F
  leB : F → F → Bool
  ltB : F → F → Bool
  draw : Nat → F

/-- Stable insertion (descending by the second component) used to model
Rust's stable `sort_by(|a, b| b.1.partial_cmp(&a.1).unwrap())`. -/
def insertDesc {F : Type} (leB : F → F → Bool) (x : Nat × F) :
    List (Nat × F) → List (Nat × F)
  | [] => [x]
  | y :: ys => if leB x.2 y.2 then y :: insertDesc leB x ys else x :: y :: ys

/-- Descending stable sort by the second component. -/
def sortDesc {F : Type} (leB : F → F → Bool) (l : List (Nat × F)) :
    List (Nat × F) :=
  l.foldr (insertDesc leB) []

/-- `probs.iter().map(..).sum()` / the running `sum += p` accumulation. -/
def sumF {F : Type} (fadd : F → F → F) (fzero : F) (l : List F) : F :=
  l.foldl fadd fzero

/-- The top-p truncation count: `acc += p; keep += 1; if acc >= top_p break`. -/
def keepCount {F : Type} (fadd : F → F → F) (leB : F → F → Bool) (tp : F) :
    F → List (Nat × F) → Nat
  | _, [] => 0
  | acc, q :: rest =>
    let acc2 := fadd acc q.2
    if leB tp acc2 then 1 else 1 + keepCount fadd leB tp acc2 rest

/-- The final cumulative scan: return the first index whose cumulative
probability reaches the draw `r`. -/
def cumFirst {F : Type} (fadd : F → F → F) (leB : F → F → Bool) (r : F) :
    F → List (Nat × F) → Option Nat
  | _, [] => none
  | acc, q :: rest =>
    let acc2 := fadd acc q.2
    if leB r acc2 then some q.1 else cumFirst fadd leB r acc2 rest

/-- `sample_top_k_top_p(logits, top_k, top_p, temperature, seed)`. -/
def sample_top_k_top_p {F : Type} (ops : SampleOps F) (entropy : Nat)
    (logits : List F) (top_k : Nat) (top_p temperature : F)
    (seed : Option Nat) : Nat :=
  let rngSeed := match seed with | some s => s | none => entropy
  if logits.isEmpty then 0
  else
    let pairs := logits.enum.map
      (fun q => (q.1, ops.fdiv q.2 (ops.fmax temperature ops.eps4)))
    let pairs := sortDesc ops.leB pairs
    let cutoff := if 0 < top_k then min pairs.length top_k else pairs.length
    let probs0 := (pairs.take cutoff).map (fun q => (q.1, ops.fexp q.2))
    let s := sumF ops.fadd ops.fzero (probs0.map (fun q => q.2))
    let probs1 := probs0.map (fun q => (q.1, ops.fdiv q.2 (ops.fmax s ops.eps9)))
    let probs2 :=
      if ops.ltB top_p ops.fone then
        let sorted := sortDesc ops.leB probs1
        let kept := sorted.take (keepCount ops.fadd ops.leB top_p ops.fzero sorted)
        let z := sumF ops.fadd ops.fzero (kept.map (fun q => q.2))
        kept.map (fun q => (q.1, ops.fdiv q.2 (ops.fmax z ops.eps9)))
      else probs1
    let r := ops.draw rngSeed
    match cumFirst ops.fadd ops.leB r ops.fzero probs2 with
    | some i => i
    | none => (pairs.headD (0, ops.fzero)).1

/-- C9: with a fixed seed the sampler is a deterministic function of its
arguments — the result is independent of the entropy source that would seed
the RNG in the `None` case — and on an empty logits vector it returns 0. -/
theorem sampler_deterministic {F : Type} (ops : SampleOps F) (e1 e2 : Nat)
    (logits : List F) (top_k : Nat) (top_p temperature : F) (s : Nat) :
    sample_top_k_top_p ops e1 logits top_k top_p temperature (some s)
      = sample_top_k_top_p ops e2 logits top_k top_p temperature (some s) ∧
    (∀ e seed, sample_top_k_top_p ops e ([] : List F) top_k top_p temperature seed = 0) :=
  ⟨rfl, fun _ seed => by cases seed <;> rfl⟩

/-- Concrete sampler operations over `Nat` (for the witness). -/
def natOps : SampleOps Nat :=
  { fdiv := fun a b => a / (b + 1)
  , fadd := Nat.add
  , fexp := fun a => a + 1
  , fzero := 0
  , fone := 1
  , eps4 := 0
  , eps9 := 0
  , fmax := Nat.max
  , leB := fun a b => decide (a ≤ b)
  , ltB := fun a b => decide (a < b)
  , draw := fun s => s % 7 }

/-- Witness for `sampler_deterministic` at concrete inputs: two different
entropy values, the same seed, the logits `[3, 1, 4]`. -/
theorem sampler_deterministic_witness :
    sample_top_k_top_p natOps 11 [3, 1, 4] 2 0 1 (some 42)
      = sample_top_k_top_p natOps 99 [3, 1, 4] 2 0 1 (some 42) ∧
    (∀ e seed, sample_top_k_top_p natOps e ([] : List Nat) 2 0 1 seed = 0) :=
  sampler_deterministic natOps 11 99 [3, 1, 4] 2 0 1 42

end ModelRunner
